import Mathlib

/-!
# Verification of the kivi sketch/face-topology core

Shallow embedding of the algorithmic core of the repository:

* `src/plane.js`        — `Plane` (2D frame in 3D space, `toWorld` / `toPlane`)
* `src/coordinate-system.js` — `Sketch` (vertices, edges, `addBox`,
  `detectClosedLoops`, `findLoop`, `getLoopVertices`, `fromJSON`)
* `src/face-selector.js` — `FaceSelector.buildFaceGroups` (coplanar-adjacent
  triangle flood fill, caching) and the perimeter-edge extraction of
  `createBodyFaceHighlight`
* `src/extrude.js`      — `Extrude.toGeometry`

Numbers are idealized to exact rationals (`ℚ`): JavaScript floating point
becomes exact arithmetic.  JavaScript `Map`/`Set` objects become association
lists / membership lists with the same insertion-order semantics.  A JavaScript
method that can throw is embedded as an `Option`-returning function where
`none` marks the thrown exception.
-/

namespace Kivi

/-- 3D vector with rational coordinates (idealization of `THREE.Vector3`). -/
structure Vec3 where
  x : ℚ
  y : ℚ
  z : ℚ
deriving DecidableEq, Repr

namespace Vec3

/-- Componentwise sum, `a.add(b)`. -/
def add (a b : Vec3) : Vec3 := ⟨a.x + b.x, a.y + b.y, a.z + b.z⟩

/-- Componentwise difference, `subVectors(a, b)`. -/
def sub (a b : Vec3) : Vec3 := ⟨a.x - b.x, a.y - b.y, a.z - b.z⟩

/-- Scalar multiple. -/
def smul (c : ℚ) (a : Vec3) : Vec3 := ⟨c * a.x, c * a.y, c * a.z⟩

/-- Dot product, `a.dot(b)`. -/
def dot (a b : Vec3) : ℚ := a.x * b.x + a.y * b.y + a.z * b.z

/-- Cross product, `crossVectors(a, b)`. -/
def cross (a b : Vec3) : Vec3 :=
  ⟨a.y * b.z - a.z * b.y, a.z * b.x - a.x * b.z, a.x * b.y - a.y * b.x⟩

/-- `addScaledVector(v, c)`: `a + c • v`. -/
def addScaled (a : Vec3) (v : Vec3) (c : ℚ) : Vec3 := a.add (smul c v)

theorem dot_self_nonneg (a : Vec3) : 0 ≤ dot a a := by
  have hx : (0:ℚ) ≤ a.x * a.x := mul_self_nonneg _
  have hy : (0:ℚ) ≤ a.y * a.y := mul_self_nonneg _
  have hz : (0:ℚ) ≤ a.z * a.z := mul_self_nonneg _
  unfold dot; linarith

end Vec3

/-!
## Plane (`src/plane.js`)

The constructor normalizes `normal` and derives `uAxis`/`vAxis` by two
normalized cross products (`calculateBasisVectors`, plane.js:75-90).
`Vector3.normalize` divides by the Euclidean norm, which is irrational in
general; in this exact-arithmetic model we record the *unnormalized* cross
product directions (`basisVDir`, `basisUDir`).  For the axis-aligned planes
`Plane.XY`/`XZ`/`YZ` actually constructed by the application the cross
products already have norm 1, so normalization is the identity there and the
model is exact.
-/

/-- The helper vector of `calculateBasisVectors` (plane.js:78-83):
world-X unless `|normal.x| ≥ 0.9`, in which case world-Y. -/
def tempVector (normal : Vec3) : Vec3 :=
  if |normal.x| < (9:ℚ)/10 then ⟨1, 0, 0⟩ else ⟨0, 1, 0⟩

/-- Direction of `vAxis = normalize(normal × temp)` before normalization
(plane.js:86). -/
def basisVDir (normal : Vec3) : Vec3 := Vec3.cross normal (tempVector normal)

/-- Direction of `uAxis = normalize(vAxis × normal)` before normalization
(plane.js:89). -/
def basisUDir (normal : Vec3) : Vec3 := Vec3.cross (basisVDir normal) normal

/-- A constructed plane: origin plus the derived frame
(`origin`, `normal`, `uAxis`, `vAxis` fields of `Plane`). -/
structure Plane where
  origin : Vec3
  normal : Vec3
  uAxis : Vec3
  vAxis : Vec3
deriving DecidableEq, Repr

namespace Plane

/-- `new Plane(origin, normal)` for a normal that is already unit length and
whose derived basis needs no rescaling (true for the axis-aligned
constructors below, where the cross products are unit vectors). -/
def fromUnitNormal (origin normal : Vec3) : Plane :=
  { origin := origin, normal := normal
    uAxis := basisUDir normal, vAxis := basisVDir normal }

/-- `Plane.XY()` — internal normal `(0, 1, 0)` (plane.js:49-51). -/
def XY : Plane := fromUnitNormal ⟨0, 0, 0⟩ ⟨0, 1, 0⟩

/-- `Plane.XZ()` — internal normal `(0, 0, 1)` (plane.js:55-57). -/
def XZ : Plane := fromUnitNormal ⟨0, 0, 0⟩ ⟨0, 0, 1⟩

/-- `Plane.YZ()` — internal normal `(1, 0, 0)` (plane.js:61-63). -/
def YZ : Plane := fromUnitNormal ⟨0, 0, 0⟩ ⟨1, 0, 0⟩

/-- `toWorld(u, v) = origin + u·uAxis + v·vAxis` (plane.js:93-98). -/
def toWorld (p : Plane) (u v : ℚ) : Vec3 :=
  (p.origin.addScaled p.uAxis u).addScaled p.vAxis v

/-- `toPlane(worldPos)`: dot the offset from the origin with each axis
(plane.js:101-106). -/
def toPlane (p : Plane) (worldPos : Vec3) : ℚ × ℚ :=
  let relative := worldPos.sub p.origin
  (relative.dot p.uAxis, relative.dot p.vAxis)

end Plane

/-!
## Sketch (`src/coordinate-system.js`, `Sketch` class)
-/

/-- A sketch vertex `{id, u, v}` (coordinate-system.js:180-184). -/
structure Vertex where
  id : Int
  u : ℚ
  v : ℚ
deriving DecidableEq, Repr

/-- A sketch edge `{id, type, v1, v2}` (coordinate-system.js:191-196). -/
structure Edge where
  id : Int
  kind : String
  v1 : Int
  v2 : Int
deriving DecidableEq, Repr

/-- The `Sketch` object state (coordinate-system.js:166-176).  The
`constraints` and `parameters` fields are carried verbatim but no operation in
scope reads them. -/
structure Sketch where
  plane : Plane
  vertices : List Vertex
  edges : List Edge
  constraints : List String
  parameters : List (String × ℚ)
  nextVertexId : Int
  nextEdgeId : Int
deriving DecidableEq, Repr

namespace Sketch

/-- `new Sketch(plane)` (coordinate-system.js:166-176). -/
def onPlane (p : Plane) : Sketch :=
  { plane := p, vertices := [], edges := [], constraints := [], parameters := []
    nextVertexId := 0, nextEdgeId := 0 }

/-- `addVertex(u, v)` (coordinate-system.js:179-187): assigns
`nextVertexId++`, appends, returns the new vertex and the updated sketch. -/
def addVertex (s : Sketch) (u v : ℚ) : Vertex × Sketch :=
  let vertex : Vertex := ⟨s.nextVertexId, u, v⟩
  (vertex, { s with vertices := s.vertices ++ [vertex],
                    nextVertexId := s.nextVertexId + 1 })

/-- `addEdge(v1Id, v2Id, type)` (coordinate-system.js:190-199). -/
def addEdge (s : Sketch) (v1Id v2Id : Int) (kind : String := "line") :
    Edge × Sketch :=
  let edge : Edge := ⟨s.nextEdgeId, kind, v1Id, v2Id⟩
  (edge, { s with edges := s.edges ++ [edge], nextEdgeId := s.nextEdgeId + 1 })

/-- `addBox(centerX, centerZ, width, height)` (coordinate-system.js:202-222):
4 vertices then 4 edges; returns the created records and the new sketch. -/
def addBox (s : Sketch) (centerX centerZ width height : ℚ) :
    (List Vertex × List Edge) × Sketch :=
  let halfW := width / 2
  let halfH := height / 2
  let r0 := s.addVertex (centerX - halfW) (centerZ - halfH)
  let r1 := r0.2.addVertex (centerX + halfW) (centerZ - halfH)
  let r2 := r1.2.addVertex (centerX + halfW) (centerZ + halfH)
  let r3 := r2.2.addVertex (centerX - halfW) (centerZ + halfH)
  let e0 := r3.2.addEdge r0.1.id r1.1.id
  let e1 := e0.2.addEdge r1.1.id r2.1.id
  let e2 := e1.2.addEdge r2.1.id r3.1.id
  let e3 := e2.2.addEdge r3.1.id r0.1.id
  (([r0.1, r1.1, r2.1, r3.1], [e0.1, e1.1, e2.1, e3.1]), e3.2)

/-- `getVertex(id)` (coordinate-system.js:225-227): `Array.find`, `none`
models the `undefined` result. -/
def getVertex (s : Sketch) (id : Int) : Option Vertex :=
  s.vertices.find? (fun v => v.id == id)

end Sketch

/-!
## Loop detection (`detectClosedLoops` / `findLoop`, coordinate-system.js:231-295)

The JavaScript adjacency `Map` (vertex id → array of incident edges) is an
association list with the `Map` access semantics: `get` returns the value of
the (unique) matching key, `push` appends to that value in place, a fresh key
is appended at the end.  The `Set` of visited edge ids is a `List Int` with
append-if-absent insertion.
-/

/-- Association list for the adjacency map. -/
def AdjMap := List (Int × List Edge)

/-- `adjacencyMap.get(k)` — `none` is JavaScript `undefined`. -/
def adjGet (m : AdjMap) (k : Int) : Option (List Edge) :=
  (List.find? (fun p => p.1 == k) m).map Prod.snd

/-- `if (!m.has(k)) m.set(k, []); m.get(k).push(e)` — push `e` onto key `k`,
creating the key (at the end, as `Map.set` does) when missing. -/
def adjPush (m : AdjMap) (k : Int) (e : Edge) : AdjMap :=
  match m with
  | [] => [(k, [e])]
  | (k', es) :: rest =>
      if k' = k then (k', es ++ [e]) :: rest else (k', es) :: adjPush rest k e

/-- The adjacency-map construction of `detectClosedLoops`
(coordinate-system.js:236-242): every edge is pushed under both of its
endpoint ids, in edge order. -/
def buildAdjacency (edges : List Edge) : AdjMap :=
  edges.foldl (fun m e => adjPush (adjPush m e.v1 e) e.v2 e) []

/-- `Set.add` on a list model: append if absent. -/
def setAdd (l : List Int) (x : Int) : List Int :=
  if x ∈ l then l else l ++ [x]

/-- The `while (maxIterations-- > 0)` walk of `findLoop`
(coordinate-system.js:272-292).  Arguments: adjacency map, global visited
set, target vertex (`startEdge.v1`), the loop built so far, the
`visitedInLoop` set, the current vertex, and the remaining iteration budget.
`none` is the `return null` dead-end / budget-exhausted result. -/
def findLoopGo (adj : AdjMap) (visited : List Int) (target : Int) :
    List Int → List Int → Int → Nat → Option (List Int)
  | _, _, _, 0 => none
  | loop, visitedInLoop, current, fuel + 1 =>
      let connected := (adjGet adj current).getD []
      match connected.find?
          (fun e => !(decide (e.id ∈ visitedInLoop)) && !(decide (e.id ∈ visited))) with
      | none => none
      | some e =>
          let loop' := loop ++ [e.id]
          let vil' := setAdd visitedInLoop e.id
          let current' := if e.v1 = current then e.v2 else e.v1
          if current' = target then some loop'
          else findLoopGo adj visited target loop' vil' current' fuel

/-- `findLoop(startEdge, adjacencyMap, visitedEdges)`
(coordinate-system.js:259-295): seed the walk with the start edge, walk from
its `v2` back toward its `v1`, with a budget of 100 iterations. -/
def findLoop (startEdge : Edge) (adj : AdjMap) (visited : List Int) :
    Option (List Int) :=
  findLoopGo adj visited startEdge.v1 [startEdge.id] [startEdge.id]
    startEdge.v2 100

/-- One iteration of the `this.edges.forEach(startEdge => ...)` body of
`detectClosedLoops` (coordinate-system.js:245-253), acting on the
`(loops, visitedEdges)` state. -/
def detectStep (adj : AdjMap) (st : List (List Int) × List Int) (startEdge : Edge) :
    List (List Int) × List Int :=
  if startEdge.id ∈ st.2 then st
  else
    match findLoop startEdge adj st.2 with
    | some loop =>
        if 3 ≤ loop.length then (st.1 ++ [loop], loop.foldl setAdd st.2)
        else st
    | none => st

/-- `detectClosedLoops()` (coordinate-system.js:231-256). -/
def Sketch.detectClosedLoops (s : Sketch) : List (List Int) :=
  let adj := buildAdjacency s.edges
  (s.edges.foldl (detectStep adj) ([], [])).1

/-- The per-edge walk of `getLoopVertices` (coordinate-system.js:363-367):
one looked-up vertex per edge, following the loop from `current`.  An edge id
that found no edge (`none` in the mapped list) makes `edge.v1` throw, modelled
by the outer `none`. -/
def glvGo (s : Sketch) : List (Option Edge) → Int → Option (List (Option Vertex))
  | [], _ => some []
  | none :: _, _ => none
  | some e :: rest, current =>
      let next := if e.v1 = current then e.v2 else e.v1
      (glvGo s rest next).map (fun vs => s.getVertex next :: vs)

/-- `getLoopVertices(edgeIds)` (coordinate-system.js:352-373).  The outer
`Option` models the exception when `edges[0]` is `undefined` (or a later
`edge.v1` access throws); entries are `Option Vertex` because `getVertex` can
push `undefined`.  The trailing vertex is popped. -/
def Sketch.getLoopVertices (s : Sketch) (edgeIds : List Int) :
    Option (List (Option Vertex)) :=
  if edgeIds = [] then some [] else
  let edgesOpt := edgeIds.map (fun id => s.edges.find? (fun e => e.id == id))
  match edgesOpt with
  | [] => some []
  | none :: _ => none
  | some e0 :: _ =>
      match glvGo s edgesOpt e0.v1 with
      | none => none
      | some vs => some ((s.getVertex e0.v1 :: vs).dropLast)

/-!
## Adjacency-map lemmas

`buildAdjacency` puts every edge under both of its endpoint keys — it never
consults the vertex set, so this holds for dangling edges too.
-/

@[simp] theorem adjGet_nil (k : Int) : adjGet [] k = none := rfl

@[simp] theorem adjGet_cons_self (k : Int) (es : List Edge) (rest : AdjMap) :
    adjGet ((k, es) :: rest) k = some es := by
  simp [adjGet, List.find?_cons_of_pos]

theorem adjGet_cons_ne (k₀ k' : Int) (es : List Edge) (rest : AdjMap)
    (h : k₀ ≠ k') : adjGet ((k₀, es) :: rest) k' = adjGet rest k' := by
  unfold adjGet
  rw [List.find?_cons_of_neg]
  simpa using h

theorem adjGet_adjPush_self (m : AdjMap) (k : Int) (e : Edge) :
    e ∈ (adjGet (adjPush m k e) k).getD [] := by
  induction m with
  | nil => simp [adjPush]
  | cons p rest ih =>
      obtain ⟨k', es⟩ := p
      by_cases h : k' = k
      · subst h
        simp [adjPush]
      · rw [adjPush]
        simp only [if_neg h]
        rw [adjGet_cons_ne _ _ _ _ h]
        exact ih

theorem adjGet_adjPush_mono (m : AdjMap) (k k' : Int) (e e' : Edge)
    (h : e' ∈ (adjGet m k').getD []) :
    e' ∈ (adjGet (adjPush m k e) k').getD [] := by
  induction m with
  | nil => simp at h
  | cons p rest ih =>
      obtain ⟨k₀, es⟩ := p
      rw [adjPush]
      by_cases hk : k₀ = k
      · subst hk
        rw [if_pos rfl]
        by_cases hk' : k₀ = k'
        · subst hk'
          simp at h ⊢
          exact Or.inl h
        · rw [adjGet_cons_ne _ _ _ _ hk'] at h ⊢
          exact h
      · simp only [if_neg hk]
        by_cases hk' : k₀ = k'
        · subst hk'
          simp at h ⊢
          exact h
        · rw [adjGet_cons_ne _ _ _ _ hk'] at h ⊢
          exact ih h

/-- Processing one edge of the fold registers it under both endpoints. -/
theorem adjStep_self (m : AdjMap) (e : Edge) :
    e ∈ (adjGet (adjPush (adjPush m e.v1 e) e.v2 e) e.v1).getD [] ∧
    e ∈ (adjGet (adjPush (adjPush m e.v1 e) e.v2 e) e.v2).getD [] :=
  ⟨adjGet_adjPush_mono _ _ _ _ _ (adjGet_adjPush_self m e.v1 e),
   adjGet_adjPush_self _ e.v2 e⟩

theorem adjFold_preserve (l : List Edge) : ∀ (m : AdjMap) (k : Int) (e' : Edge),
    e' ∈ (adjGet m k).getD [] →
    e' ∈ (adjGet (l.foldl (fun m e => adjPush (adjPush m e.v1 e) e.v2 e) m) k).getD [] := by
  induction l with
  | nil => intro m k e' h; exact h
  | cons x xs ihl =>
      intro m k e' h
      exact ihl _ _ _ (adjGet_adjPush_mono _ _ _ _ _ (adjGet_adjPush_mono _ _ _ _ _ h))

theorem buildAdjacency_go_mem (edges : List Edge) :
    ∀ (m : AdjMap) (e : Edge), e ∈ edges →
      e ∈ (adjGet (edges.foldl (fun m e => adjPush (adjPush m e.v1 e) e.v2 e) m) e.v1).getD [] ∧
      e ∈ (adjGet (edges.foldl (fun m e => adjPush (adjPush m e.v1 e) e.v2 e) m) e.v2).getD [] := by
  induction edges with
  | nil => intro m e he; cases he
  | cons e₀ rest ih =>
      intro m e he
      rcases List.mem_cons.mp he with h | h
      · subst h
        have hbase := adjStep_self m e
        constructor
        · exact adjFold_preserve rest _ _ _ hbase.1
        · exact adjFold_preserve rest _ _ _ hbase.2
      · exact ih _ e h

theorem buildAdjacency_mem (edges : List Edge) (e : Edge) (he : e ∈ edges) :
    e ∈ (adjGet (buildAdjacency edges) e.v1).getD [] ∧
    e ∈ (adjGet (buildAdjacency edges) e.v2).getD [] :=
  buildAdjacency_go_mem edges [] e he

/-!
## C1: dangling-edge handling
-/

/-- A sketch with an empty vertex set and three edges joining the
nonexistent vertex ids `0`, `1`, `2` into a cycle: every edge is dangling. -/
def danglingTriangle : Sketch :=
  ((((Sketch.onPlane Plane.XY).addEdge 0 1).2.addEdge 1 2).2.addEdge 2 0).2

/-- **C1 counterexample.**  In `danglingTriangle` every edge references
vertices that do not exist (the vertex set is empty), yet `detectClosedLoops`
returns the loop `[0, 1, 2]` made of exactly those edges: a dangling edge is
*not* absent from the adjacency map, *can* be traversed, and *does* appear in
a returned loop, contradicting the claim. -/
theorem dangling_edge_in_returned_loop :
    danglingTriangle.vertices = [] ∧
    danglingTriangle.getVertex 0 = none ∧
    danglingTriangle.edges.map Edge.id = [0, 1, 2] ∧
    Sketch.detectClosedLoops danglingTriangle = [[0, 1, 2]] :=
  ⟨rfl, rfl, rfl, rfl⟩

/-- **C1** (amended).  For every sketch containing an edge whose `v1` or `v2`
id has no matching vertex in the vertex set, `detectClosedLoops` completes
without error (the embedded function is total), but the edge is nevertheless
present in the adjacency map under both of its endpoint ids — the map is
built from the edge list alone, never consulting the vertex set — so the
edge can be traversed and can appear in a returned loop. -/
theorem dangling_edge_present_in_adjacency
    (s : Sketch) (e : Edge) (he : e ∈ s.edges)
    (hdangling : s.getVertex e.v1 = none ∨ s.getVertex e.v2 = none) :
    e ∈ (adjGet (buildAdjacency s.edges) e.v1).getD [] ∧
    e ∈ (adjGet (buildAdjacency s.edges) e.v2).getD [] :=
  buildAdjacency_mem s.edges e he

/-- Witness for the amended C1: the first dangling edge of
`danglingTriangle` is present in the adjacency map under both vertex ids `0`
and `1`. -/
theorem dangling_edge_present_in_adjacency_witness :
    (⟨0, "line", 0, 1⟩ : Edge) ∈
      (adjGet (buildAdjacency danglingTriangle.edges) 0).getD [] ∧
    (⟨0, "line", 0, 1⟩ : Edge) ∈
      (adjGet (buildAdjacency danglingTriangle.edges) 1).getD [] :=
  dangling_edge_present_in_adjacency danglingTriangle ⟨0, "line", 0, 1⟩
    (by decide) (Or.inl rfl)

/-!
## C3: the box sketch yields exactly one loop of its four edges
-/

/-- A fresh sketch on plane `p` after `addBox(cx, cz, w, h)`: the created
vertex and edge records, and the resulting sketch. -/
def boxSketch (p : Plane) (cx cz w h : ℚ) : (List Vertex × List Edge) × Sketch :=
  (Sketch.onPlane p).addBox cx cz w h

/-!
## C2: loops are pairwise edge-disjoint
-/

theorem mem_setAdd {l : List Int} {x y : Int} : y ∈ setAdd l x ↔ y ∈ l ∨ y = x := by
  unfold setAdd
  by_cases h : x ∈ l
  · rw [if_pos h]
    constructor
    · exact Or.inl
    · rintro (hy | rfl)
      · exact hy
      · exact h
  · rw [if_neg h]
    simp

theorem mem_foldl_setAdd (loop : List Int) : ∀ (visited : List Int) (y : Int),
    y ∈ loop.foldl setAdd visited ↔ y ∈ visited ∨ y ∈ loop := by
  induction loop with
  | nil => simp
  | cons a rest ih =>
      intro visited y
      rw [List.foldl_cons, ih, mem_setAdd, List.mem_cons]
      tauto

/-- Soundness of the `findLoop` walk: under the invariants that the partial
loop is inside `visitedInLoop`, has no duplicates and avoids the global
visited set, a returned loop has no duplicates and avoids the global visited
set. -/
theorem findLoopGo_sound (adj : AdjMap) (visited : List Int) (target : Int) :
    ∀ (fuel : Nat) (loop vil : List Int) (current : Int) (out : List Int),
      findLoopGo adj visited target loop vil current fuel = some out →
      (∀ id ∈ loop, id ∈ vil) → loop.Nodup → (∀ id ∈ loop, id ∉ visited) →
      out.Nodup ∧ (∀ id ∈ out, id ∉ visited) := by
  intro fuel
  induction fuel with
  | zero =>
      intro loop vil current out h
      exact absurd h (by simp [findLoopGo])
  | succ fuel ih =>
      intro loop vil current out h hsub hnd hnv
      rw [findLoopGo] at h
      rcases hfind : List.find?
          (fun e => !(decide (e.id ∈ vil)) && !(decide (e.id ∈ visited)))
          ((adjGet adj current).getD []) with _ | e
      · rw [hfind] at h
        simp at h
      · rw [hfind] at h
        dsimp only at h
        have hpred := List.find?_some hfind
        simp only [Bool.and_eq_true, Bool.not_eq_true', decide_eq_false_iff_not] at hpred
        obtain ⟨hnotvil, hnotvis⟩ := hpred
        have hnotloop : e.id ∉ loop := fun hc => hnotvil (hsub _ hc)
        have hsub' : ∀ id ∈ loop ++ [e.id], id ∈ setAdd vil e.id := by
          intro id hid
          rcases List.mem_append.mp hid with hid | hid
          · exact mem_setAdd.mpr (Or.inl (hsub _ hid))
          · rcases List.mem_singleton.mp hid with rfl
            exact mem_setAdd.mpr (Or.inr rfl)
        have hnd' : (loop ++ [e.id]).Nodup := by
          rw [List.nodup_append]
          refine ⟨hnd, List.nodup_singleton _, ?_⟩
          intro a ha hb
          rcases List.mem_singleton.mp hb with rfl
          exact hnotloop ha
        have hnv' : ∀ id ∈ loop ++ [e.id], id ∉ visited := by
          intro id hid
          rcases List.mem_append.mp hid with hid | hid
          · exact hnv _ hid
          · rcases List.mem_singleton.mp hid with rfl
            exact hnotvis
        by_cases hclose : (if e.v1 = current then e.v2 else e.v1) = target
        · rw [if_pos hclose] at h
          cases h
          exact ⟨hnd', hnv'⟩
        · rw [if_neg hclose] at h
          exact ih _ _ _ _ h hsub' hnd' hnv'

theorem findLoop_sound (startEdge : Edge) (adj : AdjMap) (visited : List Int)
    (out : List Int) (h : findLoop startEdge adj visited = some out)
    (hstart : startEdge.id ∉ visited) :
    out.Nodup ∧ (∀ id ∈ out, id ∉ visited) := by
  refine findLoopGo_sound adj visited startEdge.v1 100 _ _ _ _ h ?_ ?_ ?_
  · intro id hid
    rcases List.mem_singleton.mp hid with rfl
    exact List.mem_singleton.mpr rfl
  · exact List.nodup_singleton _
  · intro id hid
    rcases List.mem_singleton.mp hid with rfl
    exact hstart

/-- Invariant carried through the `detectClosedLoops` fold: collected loops
are pairwise edge-disjoint and all their edges are in the visited set. -/
def DetectInv (st : List (List Int) × List Int) : Prop :=
  List.Pairwise (fun l1 l2 => ∀ id ∈ l1, id ∉ l2) st.1 ∧
  ∀ l ∈ st.1, ∀ id ∈ l, id ∈ st.2

theorem detectStep_inv (adj : AdjMap) (st : List (List Int) × List Int)
    (e : Edge) (h : DetectInv st) : DetectInv (detectStep adj st e) := by
  unfold detectStep
  by_cases hv : e.id ∈ st.2
  · rw [if_pos hv]; exact h
  · rw [if_neg hv]
    rcases hfl : findLoop e adj st.2 with _ | loop
    · exact h
    · dsimp only
      obtain ⟨hnd, hdisj⟩ := findLoop_sound e adj st.2 loop hfl hv
      by_cases hlen : 3 ≤ loop.length
      · rw [if_pos hlen]
        constructor
        · rw [List.pairwise_append]
          refine ⟨h.1, List.pairwise_singleton _ _, ?_⟩
          intro l hl l' hl' id hid
          rcases List.mem_singleton.mp hl' with rfl
          intro hc
          exact hdisj id hc (h.2 l hl id hid)
        · intro l hl id hid
          rcases List.mem_append.mp hl with hl | hl
          · exact (mem_foldl_setAdd _ _ _).mpr (Or.inl (h.2 l hl id hid))
          · rcases List.mem_singleton.mp hl with rfl
            exact (mem_foldl_setAdd _ _ _).mpr (Or.inr hid)
      · rw [if_neg hlen]; exact h

theorem foldl_detectStep_inv (adj : AdjMap) (edges : List Edge) :
    ∀ st, DetectInv st → DetectInv (edges.foldl (detectStep adj) st) := by
  induction edges with
  | nil => intro st h; exact h
  | cons e rest ih => intro st h; exact ih _ (detectStep_inv adj st e h)

/-- **C2.**  The loops returned by `detectClosedLoops` are pairwise
edge-disjoint; a successful loop attempt (started on an unvisited edge,
closed, `≥ 3` edges) marks all of its edge ids in the global visited set; a
failed attempt (dead end / budget exhausted, or a closed walk of fewer than 3
edges) leaves the whole `(loops, visited)` state exactly as it was. -/
theorem detectClosedLoops_disjoint (s : Sketch) :
    List.Pairwise (fun l1 l2 => ∀ id ∈ l1, id ∉ l2) s.detectClosedLoops ∧
    (∀ (adj : AdjMap) (st : List (List Int) × List Int) (e : Edge)
        (loop : List Int), e.id ∉ st.2 → findLoop e adj st.2 = some loop →
        3 ≤ loop.length →
        (detectStep adj st e).2 = loop.foldl setAdd st.2 ∧
        ∀ id ∈ loop, id ∈ (detectStep adj st e).2) ∧
    (∀ (adj : AdjMap) (st : List (List Int) × List Int) (e : Edge),
        (findLoop e adj st.2 = none ∨
          ∃ loop, findLoop e adj st.2 = some loop ∧ loop.length < 3) →
        detectStep adj st e = st) := by
  refine ⟨?_, ?_, ?_⟩
  · have h := foldl_detectStep_inv (buildAdjacency s.edges) s.edges ([], [])
      ⟨List.Pairwise.nil, by intro l hl; cases hl⟩
    exact h.1
  · intro adj st e loop hv hfl hlen
    have hsnd : (detectStep adj st e).2 = loop.foldl setAdd st.2 := by
      unfold detectStep
      rw [if_neg hv, hfl]
      dsimp only
      rw [if_pos hlen]
    refine ⟨hsnd, ?_⟩
    intro id hid
    rw [hsnd]
    exact (mem_foldl_setAdd _ _ _).mpr (Or.inr hid)
  · intro adj st e hfail
    unfold detectStep
    by_cases hv : e.id ∈ st.2
    · rw [if_pos hv]
    · rw [if_neg hv]
      rcases hfail with hfail | ⟨loop, hfl, hlen⟩
      · rw [hfail]
      · rw [hfl]
        dsimp only
        rw [if_neg (by omega)]

/-- Witness for C2: on the concrete `danglingTriangle` sketch, a successful
`findLoop` attempt from the first edge marks edge id `0` as visited. -/
theorem detectClosedLoops_disjoint_witness :
    (0 : Int) ∈
      (detectStep (buildAdjacency danglingTriangle.edges) ([], [])
        ⟨0, "line", 0, 1⟩).2 :=
  ((detectClosedLoops_disjoint danglingTriangle).2.1
      (buildAdjacency danglingTriangle.edges) ([], []) ⟨0, "line", 0, 1⟩
      [0, 1, 2] (by simp) rfl (by decide)).2 0 (by decide)

/-!
## C10: loop detection is a read-only query
-/

/-- State-transformer form of `detectClosedLoops`
(coordinate-system.js:231-256): the method reads `this.edges` but assigns no
field of the sketch, so the faithful transformer pairs the computed loops
with the unchanged sketch (its only locals — the adjacency map and the
visited set — die with the call). -/
def Sketch.detectClosedLoopsS (s : Sketch) : List (List Int) × Sketch :=
  (s.detectClosedLoops, s)

/-- State-transformer form of `getLoopVertices`
(coordinate-system.js:352-373): reads `this.edges` / `this.vertices` only. -/
def Sketch.getLoopVerticesS (s : Sketch) (edgeIds : List Int) :
    (Option (List (Option Vertex))) × Sketch :=
  (s.getLoopVertices edgeIds, s)

/-- **C10.**  `detectClosedLoops` (with its inner `findLoop` walks) and
`getLoopVertices` leave the sketch unchanged — vertices, edges and both id
counters included — and repeating the query returns the identical result. -/
theorem loop_detection_readonly (s : Sketch) (edgeIds : List Int) :
    (s.detectClosedLoopsS.2 = s) ∧
    ((s.getLoopVerticesS edgeIds).2 = s) ∧
    ((s.detectClosedLoopsS.2.detectClosedLoopsS).1 = s.detectClosedLoopsS.1) ∧
    ((s.detectClosedLoopsS.2.getLoopVerticesS edgeIds).1 =
      (s.getLoopVerticesS edgeIds).1) :=
  ⟨rfl, rfl, rfl, rfl⟩

/-!
## C7: plane round trip
-/

/-- The two cross products of `calculateBasisVectors` are orthogonal to each
other and to the normal for *every* normal vector (cross-product identities);
normalization only rescales them, so a constructed plane's frame is
orthonormal whenever the normal is nonzero. -/
theorem basis_orthogonal (n : Vec3) :
    Vec3.dot (basisVDir n) n = 0 ∧ Vec3.dot (basisUDir n) (basisVDir n) = 0 ∧
    Vec3.dot (basisUDir n) n = 0 := by
  obtain ⟨nx, ny, nz⟩ := n
  unfold basisUDir basisVDir tempVector Vec3.cross Vec3.dot
  by_cases h : |nx| < (9:ℚ)/10 <;> simp only [if_pos, if_neg, h] <;>
    refine ⟨by ring, by ring, by ring⟩

/-- **C7.**  For every constructed plane — its `uAxis`/`vAxis` are unit
length and orthogonal, as `calculateBasisVectors` guarantees — and all plane
coordinates `(u, v)`, `toPlane(toWorld(u, v))` equals `(u, v)` exactly (the
exact-arithmetic form of "within floating tolerance"). -/
theorem toPlane_toWorld_roundtrip (p : Plane) (u v : ℚ)
    (hu : Vec3.dot p.uAxis p.uAxis = 1) (hv : Vec3.dot p.vAxis p.vAxis = 1)
    (huv : Vec3.dot p.uAxis p.vAxis = 0) :
    p.toPlane (p.toWorld u v) = (u, v) := by
  obtain ⟨o, n, ⟨ux, uy, uz⟩, ⟨vx, vy, vz⟩⟩ := p
  unfold Vec3.dot at hu hv huv
  simp only at hu hv huv
  unfold Plane.toPlane Plane.toWorld Vec3.addScaled Vec3.add Vec3.smul
    Vec3.sub Vec3.dot
  simp only [Prod.mk.injEq]
  constructor
  · linear_combination u * hu + v * huv
  · linear_combination v * hv + u * huv

/-- Witness for C7: on the concrete `Plane.XY` (derived axes `(1,0,0)` and
`(0,0,-1)`) the round trip at `(5, 7)` is exact. -/
theorem toPlane_toWorld_roundtrip_witness :
    Plane.XY.toPlane (Plane.XY.toWorld 5 7) = (5, 7) := by
  have hu : Plane.XY.uAxis = ⟨1, 0, 0⟩ := by
    norm_num [Plane.XY, Plane.fromUnitNormal, basisUDir, basisVDir,
      tempVector, Vec3.cross]
  have hv : Plane.XY.vAxis = ⟨0, 0, -1⟩ := by
    norm_num [Plane.XY, Plane.fromUnitNormal, basisUDir, basisVDir,
      tempVector, Vec3.cross]
  refine toPlane_toWorld_roundtrip Plane.XY 5 7 ?_ ?_ ?_
  · rw [hu]; norm_num [Vec3.dot]
  · rw [hv]; norm_num [Vec3.dot]
  · rw [hu, hv]; norm_num [Vec3.dot]

/-!
## C8: deserialization resets the id counters
-/

/-- The plain record produced by `Sketch.toJSON` and consumed by
`Sketch.fromJSON` (coordinate-system.js:450-473). -/
structure SketchData where
  plane : Plane
  vertices : List Vertex
  edges : List Edge
  constraints : List String
  parameters : List (String × ℚ)
deriving DecidableEq, Repr

/-- `Sketch.fromJSON(data)` (coordinate-system.js:461-473):
`nextVertexId = Math.max(...vertices.map(v => v.id), -1) + 1`, i.e. the fold
of `max` over the ids with seed `-1`, plus one; likewise for edges. -/
def Sketch.fromJSON (d : SketchData) : Sketch :=
  { plane := d.plane, vertices := d.vertices, edges := d.edges,
    constraints := d.constraints, parameters := d.parameters,
    nextVertexId := (d.vertices.map Vertex.id).foldl max (-1) + 1,
    nextEdgeId := (d.edges.map Edge.id).foldl max (-1) + 1 }

/-- The counter-reset rule in the spec's words (§6): `max(existing ids) + 1`,
or `0` when the respective list is empty.  Used to compare `fromJSON`
against the specification. -/
def specNextId (ids : List Int) : Int :=
  match ids with
  | [] => 0
  | x :: xs => xs.foldl max x + 1

/-- An insertion performed after loading: `addVertex` or `addEdge`. -/
inductive SketchOp where
  | addV (u v : ℚ)
  | addE (v1 v2 : Int)

/-- Replay a list of insertions on a sketch, collecting the vertex ids and
edge ids assigned along the way. -/
def replayIds : Sketch → List SketchOp → List Int × List Int
  | _, [] => ([], [])
  | s, SketchOp.addV u v :: ops =>
      let r := s.addVertex u v
      let t := replayIds r.2 ops
      (r.1.id :: t.1, t.2)
  | s, SketchOp.addE a b :: ops =>
      let r := s.addEdge a b
      let t := replayIds r.2 ops
      (t.1, r.1.id :: t.2)

theorem init_le_foldl_max (l : List Int) : ∀ a : Int, a ≤ l.foldl max a := by
  induction l with
  | nil => intro a; exact le_refl a
  | cons b t ih => intro a; exact le_trans (le_max_left a b) (ih (max a b))

theorem mem_le_foldl_max (l : List Int) : ∀ (a x : Int), x ∈ l → x ≤ l.foldl max a := by
  induction l with
  | nil => intro a x hx; cases hx
  | cons b t ih =>
      intro a x hx
      rcases List.mem_cons.mp hx with rfl | hx
      · exact le_trans (le_max_right a x) (init_le_foldl_max t (max a x))
      · exact ih (max a b) x hx

/-- Every id assigned by a replay is at least the respective counter of the
starting sketch. -/
theorem replayIds_ge (ops : List SketchOp) : ∀ s : Sketch,
    (∀ id ∈ (replayIds s ops).1, s.nextVertexId ≤ id) ∧
    (∀ id ∈ (replayIds s ops).2, s.nextEdgeId ≤ id) := by
  induction ops with
  | nil =>
      intro s
      constructor <;> · intro id hid; simp [replayIds] at hid
  | cons op rest ih =>
      intro s
      cases op with
      | addV u v =>
          constructor
          · intro id hid
            rw [replayIds] at hid
            rcases List.mem_cons.mp hid with rfl | hid
            · exact le_refl _
            · have := (ih (s.addVertex u v).2).1 id hid
              simp only [Sketch.addVertex] at this
              omega
          · intro id hid
            rw [replayIds] at hid
            have := (ih (s.addVertex u v).2).2 id hid
            simp only [Sketch.addVertex] at this
            omega
      | addE a b =>
          constructor
          · intro id hid
            rw [replayIds] at hid
            have := (ih (s.addEdge a b).2).1 id hid
            simp only [Sketch.addEdge] at this
            omega
          · intro id hid
            rw [replayIds] at hid
            rcases List.mem_cons.mp hid with rfl | hid
            · exact le_refl _
            · have := (ih (s.addEdge a b).2).2 id hid
              simp only [Sketch.addEdge] at this
              omega

theorem foldl_max_neg_one (ids : List Int) (hpos : ∀ id ∈ ids, 0 ≤ id) :
    ids.foldl max (-1) + 1 = specNextId ids := by
  cases ids with
  | nil => rfl
  | cons x xs =>
      have hx : max (-1) x = x :=
        max_eq_right (le_trans (by norm_num) (hpos x (List.mem_cons_self x xs)))
      rw [specNextId, List.foldl_cons, hx]

/-- **C8.**  For every serialized sketch (all stored ids are nonnegative,
as `addVertex`/`addEdge` assign them), `fromJSON` resets `nextVertexId` and
`nextEdgeId` to `max(existing ids) + 1` — or `0` when the respective list is
empty — and every vertex or edge added after loading (any sequence of
insertions) receives an id that collides with no loaded id. -/
theorem fromJSON_resets_counters (d : SketchData)
    (hv : ∀ vx ∈ d.vertices, 0 ≤ vx.id) (he : ∀ e ∈ d.edges, 0 ≤ e.id) :
    (Sketch.fromJSON d).nextVertexId = specNextId (d.vertices.map Vertex.id) ∧
    (Sketch.fromJSON d).nextEdgeId = specNextId (d.edges.map Edge.id) ∧
    ∀ ops : List SketchOp,
      (∀ id ∈ (replayIds (Sketch.fromJSON d) ops).1,
        ∀ vx ∈ d.vertices, vx.id ≠ id) ∧
      (∀ id ∈ (replayIds (Sketch.fromJSON d) ops).2,
        ∀ e ∈ d.edges, e.id ≠ id) := by
  have hv' : ∀ id ∈ d.vertices.map Vertex.id, 0 ≤ id := by
    intro id hid
    obtain ⟨vx, hvx, rfl⟩ := List.mem_map.mp hid
    exact hv vx hvx
  have he' : ∀ id ∈ d.edges.map Edge.id, 0 ≤ id := by
    intro id hid
    obtain ⟨e, hee, rfl⟩ := List.mem_map.mp hid
    exact he e hee
  refine ⟨foldl_max_neg_one _ hv', foldl_max_neg_one _ he', ?_⟩
  intro ops
  constructor
  · intro id hid vx hvx
    have h₁ : vx.id ≤ (d.vertices.map Vertex.id).foldl max (-1) :=
      mem_le_foldl_max _ _ _ (List.mem_map.mpr ⟨vx, hvx, rfl⟩)
    have h₂ : (Sketch.fromJSON d).nextVertexId ≤ id :=
      (replayIds_ge ops (Sketch.fromJSON d)).1 id hid
    have h₃ : (Sketch.fromJSON d).nextVertexId =
        (d.vertices.map Vertex.id).foldl max (-1) + 1 := rfl
    omega
  · intro id hid e hee
    have h₁ : e.id ≤ (d.edges.map Edge.id).foldl max (-1) :=
      mem_le_foldl_max _ _ _ (List.mem_map.mpr ⟨e, hee, rfl⟩)
    have h₂ : (Sketch.fromJSON d).nextEdgeId ≤ id :=
      (replayIds_ge ops (Sketch.fromJSON d)).2 id hid
    have h₃ : (Sketch.fromJSON d).nextEdgeId =
        (d.edges.map Edge.id).foldl max (-1) + 1 := rfl
    omega

/-- Concrete serialized sketch for the C8 witness: one vertex with id 5. -/
def sampleData : SketchData :=
  ⟨Plane.XY, [⟨5, 0, 0⟩], [], [], []⟩

/-- Witness for C8: loading `sampleData` resets the vertex counter to
`5 + 1 = 6` and a subsequently added vertex collides with no loaded id. -/
theorem fromJSON_resets_counters_witness :
    (Sketch.fromJSON sampleData).nextVertexId = specNextId [5] ∧
    ∀ id ∈ (replayIds (Sketch.fromJSON sampleData) [SketchOp.addV 1 2]).1,
      ∀ vx ∈ sampleData.vertices, vx.id ≠ id := by
  have h := fromJSON_resets_counters sampleData (by decide) (by simp [sampleData])
  exact ⟨h.1, ((h.2.2) [SketchOp.addV 1 2]).1⟩

/-!
## C9: extrusion of an empty loop list
-/

/-- The data determining the `THREE.ExtrudeGeometry` built by `extrudeLoop`
(extrude.js:34-64): the 2D profile points fed to the `Shape`, the extrusion
`depth = distance * direction`, and the sketch plane whose basis/origin form
the applied matrix. -/
structure ExtGeometry where
  profile : List (ℚ × ℚ)
  depth : ℚ
  plane : Plane
deriving DecidableEq, Repr

/-- `extrudeLoop(loopVertices)` (extrude.js:34-64): reads `vertex.u` /
`vertex.v` of every loop vertex (a missing vertex — `undefined` in the list —
throws, modelled by `none`). -/
def extrudeLoop (pl : Plane) (distance direction : ℚ)
    (loopVertices : List (Option Vertex)) : Option ExtGeometry :=
  (loopVertices.mapM (fun o : Option Vertex => o.map (fun vx => (vx.u, vx.v)))).map
    (fun pts => ⟨pts, distance * direction, pl⟩)

/-- The `Extrude` object (extrude.js:4-9). -/
structure Extrude where
  sketch : Sketch
  distance : ℚ
  direction : ℚ

/-- `Extrude.toGeometry()` (extrude.js:12-31).  Outer `none` models a thrown
exception; `some none` models the explicit `return null`. -/
def Extrude.toGeometry (e : Extrude) : Option (Option ExtGeometry) :=
  match e.sketch.detectClosedLoops with
  | [] => some none
  | loop :: _ =>
      match e.sketch.getLoopVertices loop with
      | none => none
      | some lv =>
          if lv.length < 3 then some none
          else (extrudeLoop e.sketch.plane e.distance e.direction lv).map some

/-- **C9.**  When `detectClosedLoops` returns an empty loop list,
`Extrude.toGeometry` returns null (`some none`: an explicit nothing-to-do
result, not an exception); likewise it returns null whenever the first loop
yields fewer than 3 vertices. -/
theorem toGeometry_null_on_empty (e : Extrude) :
    (e.sketch.detectClosedLoops = [] → e.toGeometry = some none) ∧
    (∀ loop rest lv, e.sketch.detectClosedLoops = loop :: rest →
      e.sketch.getLoopVertices loop = some lv → lv.length < 3 →
      e.toGeometry = some none) := by
  constructor
  · intro h
    unfold Extrude.toGeometry
    rw [h]
  · intro loop rest lv h hlv hlen
    unfold Extrude.toGeometry
    rw [h]
    dsimp only
    rw [hlv]
    dsimp only
    rw [if_pos hlen]

/-- Witness for C9: an extrusion of an empty sketch (no loops) returns the
explicit null result. -/
theorem toGeometry_null_on_empty_witness :
    (Extrude.mk (Sketch.onPlane Plane.XY) 1 1).toGeometry = some none :=
  (toGeometry_null_on_empty (Extrude.mk (Sketch.onPlane Plane.XY) 1 1)).1 rfl

/-!
## Face grouping (`FaceSelector.buildFaceGroups`, face-selector.js:38-139)

A triangulated mesh is its flat position buffer: a list of points, three
consecutive points per triangle (`faceCount = position.count / 3`).

The two numeric tests are stated scale-free over the *unnormalized*
cross-product normals, which is exactly equivalent in exact arithmetic:

* `|dot(n̂1, n̂2)| > 0.9999` for the normalized normals ⟺
  `dot(n1, n2)² · 10⁸ > 9999² · |n1|² · |n2|²` (squaring the inequality of
  nonnegative numbers; when a normal is zero the JavaScript `normalize`
  yields NaN and every comparison is false, matching `0 > 0` here);
* `distanceTo < 1e-4` ⟺ `distSq · 10⁸ < 1`.
-/

/-- Index into the position buffer; out-of-range reads (which the callers
never perform) give the origin. -/
def meshPoint (mesh : List Vec3) (i : Nat) : Vec3 := mesh.getD i ⟨0, 0, 0⟩

/-- `getFaceNormal(faceIndex)` (face-selector.js:53-65) before the final
`normalize`: the cross product of the triangle's two edge vectors. -/
def getFaceNormal (mesh : List Vec3) (faceIndex : Nat) : Vec3 :=
  let v1 := meshPoint mesh (faceIndex * 3)
  let v2 := meshPoint mesh (faceIndex * 3 + 1)
  let v3 := meshPoint mesh (faceIndex * 3 + 2)
  Vec3.cross (v2.sub v1) (v3.sub v1)

/-- `getFaceVertices(faceIndex)` (face-selector.js:68-78). -/
def getFaceVertices (mesh : List Vec3) (faceIndex : Nat) : List Vec3 :=
  [meshPoint mesh (faceIndex * 3), meshPoint mesh (faceIndex * 3 + 1),
   meshPoint mesh (faceIndex * 3 + 2)]

/-- `Math.abs(normal.dot(otherNormal)) > ANGLE_THRESHOLD` with
`ANGLE_THRESHOLD = 0.9999` (face-selector.js:49,115), scale-free form. -/
def coplanarB (n1 n2 : Vec3) : Bool :=
  decide ((Vec3.dot n1 n2) ^ 2 * 100000000 >
    99980001 * (Vec3.dot n1 n1 * Vec3.dot n2 n2))

/-- `v1.distanceTo(v2) < VERTEX_THRESHOLD` with `VERTEX_THRESHOLD = 1e-4`
(face-selector.js:50,85), squared form. -/
def closeB (a b : Vec3) : Bool :=
  decide (Vec3.dot (a.sub b) (a.sub b) * 100000000 < 1)

/-- `facesShareEdge(face1Verts, face2Verts)` (face-selector.js:81-92): count
the vertices of the first triangle having a near-equal vertex in the second
(the inner `break` makes each count at most one); share an edge when at
least 2. -/
def facesShareEdge (f1 f2 : List Vec3) : Bool :=
  decide (2 ≤ f1.countP (fun w1 => f2.any (fun w2 => closeB w1 w2)))

/-- The flood-fill acceptance test (face-selector.js:115-116): the *seed*
triangle's normal against the candidate's normal, and the *current* queue
triangle's vertices against the candidate's vertices. -/
def meshCompat (mesh : List Vec3) (seed current other : Nat) : Bool :=
  coplanarB (getFaceNormal mesh seed) (getFaceNormal mesh other) &&
  facesShareEdge (getFaceVertices mesh current) (getFaceVertices mesh other)

/-- The `while (queue.length > 0)` wave expansion (face-selector.js:103-123),
parametrized by the acceptance test.  State: current group, processed set,
queue.  One fuel unit per dequeued face; since every face enters the queue at
most once (it is marked processed when enqueued), `faceCount + 1` units drain
the queue completely, so the fuel is an artifact of the embedding, not a
change of semantics.  Scanning against the pre-wave processed set is
faithful: the JavaScript loop adds distinct indices during one scan, so the
`processed.has(otherFace)` checks it performs are unaffected by the adds. -/
def bfsGo (compat : Nat → Nat → Nat → Bool) (faceCount seed : Nat) :
    List Nat → List Nat → List Nat → Nat → List Nat × List Nat
  | group, processed, _, 0 => (group, processed)
  | group, processed, [], _ + 1 => (group, processed)
  | group, processed, current :: rest, fuel + 1 =>
      let found := (List.range faceCount).filter
        (fun other => !(decide (other ∈ processed)) && compat seed current other)
      bfsGo compat faceCount seed (group ++ found) (processed ++ found)
        (rest ++ found) fuel

/-- The outer `for (faceIndex …)` loop (face-selector.js:95-126) over the
remaining face indices, carrying `(groups, processed)`. -/
def buildGroupsGo (compat : Nat → Nat → Nat → Bool) (faceCount : Nat) :
    List Nat → List (List Nat) × List Nat → List (List Nat) × List Nat
  | [], st => st
  | faceIndex :: rest, st =>
      if faceIndex ∈ st.2 then buildGroupsGo compat faceCount rest st
      else
        let r := bfsGo compat faceCount faceIndex [faceIndex]
          (st.2 ++ [faceIndex]) [faceIndex] (faceCount + 1)
        buildGroupsGo compat faceCount rest (st.1 ++ [r.1], r.2)

/-- `Map.set` on the reverse index: overwrite in place or append. -/
def mapSet (m : List (Nat × Nat)) (k v : Nat) : List (Nat × Nat) :=
  match m with
  | [] => [(k, v)]
  | (k', v') :: rest =>
      if k' = k then (k, v) :: rest else (k', v') :: mapSet rest k v

/-- `Map.get` on the reverse index. -/
def mapGet (m : List (Nat × Nat)) (k : Nat) : Option Nat :=
  (m.find? (fun p => p.1 == k)).map Prod.snd

/-- The reverse-lookup construction (face-selector.js:129-134):
`groups.forEach((group, groupIndex) => group.faceIndices.forEach(faceIndex =>
faceToGroup.set(faceIndex, groupIndex)))`. -/
def buildF2G : List (List Nat) → Nat → List (Nat × Nat) → List (Nat × Nat)
  | [], _, m => m
  | g :: gs, gi, m => buildF2G gs (gi + 1) (g.foldl (fun m fi => mapSet m fi gi) m)

/-- The `{ groups, faceToGroup }` result record (face-selector.js:136). -/
structure FaceGroupsResult where
  groups : List (List Nat)
  faceToGroup : List (Nat × Nat)
deriving DecidableEq, Repr

/-- The grouping computation for an acceptance test and a face count
(face-selector.js:44-136). -/
def buildGroupsPure (compat : Nat → Nat → Nat → Bool) (faceCount : Nat) :
    FaceGroupsResult :=
  let r := buildGroupsGo compat faceCount (List.range faceCount) ([], [])
  ⟨r.1, buildF2G r.1 0 []⟩

/-- The grouping of a concrete mesh. -/
def buildFaceGroupsOfMesh (mesh : List Vec3) : FaceGroupsResult :=
  buildGroupsPure (meshCompat mesh) (mesh.length / 3)

/-- The `faceGroupsCache` (face-selector.js:26), keyed by `mesh.uuid`. -/
abbrev FaceGroupsCache := List (String × FaceGroupsResult)

/-- `buildFaceGroups(mesh)` with its cache check (face-selector.js:38-42,
136-138): on a hit return the cached result, otherwise compute, store
(`Map.set` appends the fresh key) and return. -/
def buildFaceGroups (cache : FaceGroupsCache) (uuid : String)
    (mesh : List Vec3) : FaceGroupsResult × FaceGroupsCache :=
  match List.find? (fun p => p.1 == uuid) cache with
  | some p => (p.2, cache)
  | none =>
      let result := buildFaceGroupsOfMesh mesh
      (result, cache ++ [(uuid, result)])

/-!
## C4: face grouping is a partition, and the cache is idempotent
-/

/-- What a completed wave expansion guarantees, relative to the processed
set `processed₀` from before the group was seeded: the processed set is
exactly `processed₀` followed by the group, the group has no duplicates,
avoids `processed₀`, stays in range, and contains the seed group. -/
def BfsOut (processed₀ group₀ : List Nat) (faceCount : Nat)
    (r : List Nat × List Nat) : Prop :=
  r.2 = processed₀ ++ r.1 ∧ r.1.Nodup ∧ (∀ i ∈ r.1, i ∉ processed₀) ∧
  (∀ i ∈ r.1, i < faceCount) ∧ (∀ i ∈ group₀, i ∈ r.1)

theorem bfsGo_spec (compat : Nat → Nat → Nat → Bool) (faceCount seed : Nat) :
    ∀ (fuel : Nat) (queue group processed₀ : List Nat),
      group.Nodup → (∀ i ∈ group, i ∉ processed₀) →
      (∀ i ∈ group, i < faceCount) →
      BfsOut processed₀ group faceCount
        (bfsGo compat faceCount seed group (processed₀ ++ group) queue fuel) := by
  intro fuel
  induction fuel with
  | zero =>
      intro queue group processed₀ hnd hdis hlt
      cases queue <;> exact ⟨rfl, hnd, hdis, hlt, fun i h => h⟩
  | succ fuel ih =>
      intro queue group processed₀ hnd hdis hlt
      cases queue with
      | nil => exact ⟨rfl, hnd, hdis, hlt, fun i h => h⟩
      | cons current rest =>
          rw [bfsGo]
          rw [List.append_assoc]
          have hfoundmem : ∀ i ∈ (List.range faceCount).filter
              (fun other => !(decide (other ∈ processed₀ ++ group)) &&
                compat seed current other),
              i < faceCount ∧ i ∉ processed₀ ++ group := by
            intro i hi
            obtain ⟨hr, hp⟩ := List.mem_filter.mp hi
            rw [Bool.and_eq_true] at hp
            refine ⟨List.mem_range.mp hr, ?_⟩
            have := hp.1
            simp only [Bool.not_eq_true', decide_eq_false_iff_not] at this
            exact this
          have h1 : (group ++ (List.range faceCount).filter
              (fun other => !(decide (other ∈ processed₀ ++ group)) &&
                compat seed current other)).Nodup := by
            rw [List.nodup_append]
            refine ⟨hnd, List.Nodup.filter _ (List.nodup_range _), ?_⟩
            intro a ha hb
            exact (hfoundmem a hb).2 (List.mem_append.mpr (Or.inr ha))
          have h2 : ∀ i ∈ group ++ (List.range faceCount).filter
              (fun other => !(decide (other ∈ processed₀ ++ group)) &&
                compat seed current other), i ∉ processed₀ := by
            intro i hi
            rcases List.mem_append.mp hi with hi | hi
            · exact hdis i hi
            · intro hc
              exact (hfoundmem i hi).2 (List.mem_append.mpr (Or.inl hc))
          have h3 : ∀ i ∈ group ++ (List.range faceCount).filter
              (fun other => !(decide (other ∈ processed₀ ++ group)) &&
                compat seed current other), i < faceCount := by
            intro i hi
            rcases List.mem_append.mp hi with hi | hi
            · exact hlt i hi
            · exact (hfoundmem i hi).1
          have hmain := ih (rest ++ (List.range faceCount).filter
              (fun other => !(decide (other ∈ processed₀ ++ group)) &&
                compat seed current other)) _ processed₀ h1 h2 h3
          exact ⟨hmain.1, hmain.2.1, hmain.2.2.1, hmain.2.2.2.1,
            fun i hi => hmain.2.2.2.2 i (List.mem_append.mpr (Or.inl hi))⟩

theorem buildGroupsGo_spec (compat : Nat → Nat → Nat → Bool) (faceCount : Nat) :
    ∀ (l : List Nat) (st : List (List Nat) × List Nat),
      (∀ i ∈ l, i < faceCount) →
      st.2 = st.1.flatten → st.2.Nodup → (∀ i ∈ st.2, i < faceCount) →
      ((buildGroupsGo compat faceCount l st).2 =
          (buildGroupsGo compat faceCount l st).1.flatten) ∧
      (buildGroupsGo compat faceCount l st).2.Nodup ∧
      (∀ i ∈ (buildGroupsGo compat faceCount l st).2, i < faceCount) ∧
      (∀ i ∈ st.2, i ∈ (buildGroupsGo compat faceCount l st).2) ∧
      (∀ i ∈ l, i ∈ (buildGroupsGo compat faceCount l st).2) := by
  intro l
  induction l with
  | nil =>
      intro st _ h1 h2 h3
      exact ⟨h1, h2, h3, fun i hi => hi, fun i hi => absurd hi (by simp)⟩
  | cons faceIndex rest ih =>
      intro st hl h1 h2 h3
      have hrest : ∀ i ∈ rest, i < faceCount :=
        fun i hi => hl i (List.mem_cons.mpr (Or.inr hi))
      by_cases hmem : faceIndex ∈ st.2
      · rw [buildGroupsGo, if_pos hmem]
        have h := ih st hrest h1 h2 h3
        exact ⟨h.1, h.2.1, h.2.2.1, h.2.2.2.1,
          fun i hi => by
            rcases List.mem_cons.mp hi with rfl | hi
            · exact h.2.2.2.1 i hmem
            · exact h.2.2.2.2 i hi⟩
      · rw [buildGroupsGo, if_neg hmem]
        dsimp only
        have hbfs := bfsGo_spec compat faceCount faceIndex (faceCount + 1)
          [faceIndex] [faceIndex] st.2 (List.nodup_singleton _)
          (by intro i hi; rcases List.mem_singleton.mp hi with rfl; exact hmem)
          (by intro i hi; rcases List.mem_singleton.mp hi with rfl
              exact hl _ (List.mem_cons_self _ _))
        obtain ⟨hb1, hb2, hb3, hb4, hb5⟩ := hbfs
        have h1' : (bfsGo compat faceCount faceIndex [faceIndex]
            (st.2 ++ [faceIndex]) [faceIndex] (faceCount + 1)).2 =
            (st.1 ++ [(bfsGo compat faceCount faceIndex [faceIndex]
              (st.2 ++ [faceIndex]) [faceIndex] (faceCount + 1)).1]).flatten := by
          rw [hb1, h1]
          simp
        have h2' : (bfsGo compat faceCount faceIndex [faceIndex]
            (st.2 ++ [faceIndex]) [faceIndex] (faceCount + 1)).2.Nodup := by
          rw [hb1]
          rw [List.nodup_append]
          exact ⟨h2, hb2, fun a ha hb => hb3 a hb ha⟩
        have h3' : ∀ i ∈ (bfsGo compat faceCount faceIndex [faceIndex]
            (st.2 ++ [faceIndex]) [faceIndex] (faceCount + 1)).2,
            i < faceCount := by
          rw [hb1]
          intro i hi
          rcases List.mem_append.mp hi with hi | hi
          · exact h3 i hi
          · exact hb4 i hi
        have h := ih (st.1 ++ [(bfsGo compat faceCount faceIndex [faceIndex]
            (st.2 ++ [faceIndex]) [faceIndex] (faceCount + 1)).1],
            (bfsGo compat faceCount faceIndex [faceIndex]
              (st.2 ++ [faceIndex]) [faceIndex] (faceCount + 1)).2)
          hrest h1' h2' h3'
        refine ⟨h.1, h.2.1, h.2.2.1, ?_, ?_⟩
        · intro i hi
          refine h.2.2.2.1 i ?_
          rw [hb1]
          exact List.mem_append.mpr (Or.inl hi)
        · intro i hi
          rcases List.mem_cons.mp hi with rfl | hi
          · refine h.2.2.2.1 i ?_
            rw [hb1]
            exact List.mem_append.mpr
              (Or.inr (hb5 i (List.mem_singleton.mpr rfl)))
          · exact h.2.2.2.2 i hi

@[simp] theorem mapGet_nil (k : Nat) : mapGet [] k = none := rfl

@[simp] theorem mapGet_cons_self (k v : Nat) (rest : List (Nat × Nat)) :
    mapGet ((k, v) :: rest) k = some v := by
  simp [mapGet, List.find?_cons_of_pos]

theorem mapGet_cons_ne (k' k v' : Nat) (rest : List (Nat × Nat))
    (h : k' ≠ k) : mapGet ((k', v') :: rest) k = mapGet rest k := by
  unfold mapGet
  rw [List.find?_cons_of_neg]
  simpa using h

theorem mapGet_mapSet_self (m : List (Nat × Nat)) (k v : Nat) :
    mapGet (mapSet m k v) k = some v := by
  induction m with
  | nil => simp [mapSet]
  | cons p rest ih =>
      obtain ⟨k', v'⟩ := p
      by_cases h : k' = k
      · subst h
        rw [mapSet, if_pos rfl]
        simp
      · rw [mapSet]
        simp only [if_neg h]
        rw [mapGet_cons_ne _ _ _ _ h]
        exact ih

theorem mapGet_mapSet_ne (m : List (Nat × Nat)) (k' k v : Nat) (h : k' ≠ k) :
    mapGet (mapSet m k' v) k = mapGet m k := by
  induction m with
  | nil =>
      simp [mapSet, mapGet_cons_ne _ _ _ _ h]
  | cons p rest ih =>
      obtain ⟨k₀, v₀⟩ := p
      by_cases h₀ : k₀ = k'
      · subst h₀
        rw [mapSet, if_pos rfl, mapGet_cons_ne _ _ _ _ h, mapGet_cons_ne _ _ _ _ h]
      · rw [mapSet]
        simp only [if_neg h₀]
        by_cases h₁ : k₀ = k
        · subst h₁
          simp
        · rw [mapGet_cons_ne _ _ _ _ h₁, mapGet_cons_ne _ _ _ _ h₁]
          exact ih

theorem mapGet_foldl_mapSet_not_mem (g : List Nat) (gi : Nat) :
    ∀ (m : List (Nat × Nat)) (k : Nat), k ∉ g →
      mapGet (g.foldl (fun m fi => mapSet m fi gi) m) k = mapGet m k := by
  induction g with
  | nil => intro m k _; rfl
  | cons a t ih =>
      intro m k hk
      rw [List.foldl_cons, ih _ _ (fun hc => hk (List.mem_cons.mpr (Or.inr hc)))]
      exact mapGet_mapSet_ne m a k gi
        (fun hc => hk (List.mem_cons.mpr (Or.inl hc.symm)))

theorem mapGet_foldl_mapSet_mem (g : List Nat) (gi : Nat) :
    ∀ (m : List (Nat × Nat)) (k : Nat), k ∈ g →
      mapGet (g.foldl (fun m fi => mapSet m fi gi) m) k = some gi := by
  induction g with
  | nil => intro m k hk; cases hk
  | cons a t ih =>
      intro m k hk
      rw [List.foldl_cons]
      by_cases ht : k ∈ t
      · exact ih _ _ ht
      · have hak : a = k := by
          rcases List.mem_cons.mp hk with h | h
          · exact h.symm
          · exact absurd h ht
        subst hak
        rw [mapGet_foldl_mapSet_not_mem t gi _ a ht]
        exact mapGet_mapSet_self m a gi

theorem mapGet_buildF2G_not_mem (gs : List (List Nat)) :
    ∀ (gi : Nat) (m : List (Nat × Nat)) (k : Nat), (∀ g ∈ gs, k ∉ g) →
      mapGet (buildF2G gs gi m) k = mapGet m k := by
  induction gs with
  | nil => intro gi m k _; rfl
  | cons g₀ t ih =>
      intro gi m k hk
      rw [buildF2G, ih _ _ _ (fun g hg => hk g (List.mem_cons.mpr (Or.inr hg)))]
      exact mapGet_foldl_mapSet_not_mem g₀ gi m k
        (hk g₀ (List.mem_cons_self _ _))

theorem mapGet_buildF2G_mem (groups : List (List Nat)) :
    ∀ (gi₀ : Nat) (m : List (Nat × Nat)) (k j : Nat) (g : List Nat),
      groups.get? j = some g → k ∈ g →
      (∀ (j' : Nat) (g' : List Nat), groups.get? j' = some g' → j' ≠ j →
        k ∉ g') →
      mapGet (buildF2G groups gi₀ m) k = some (gi₀ + j) := by
  induction groups with
  | nil => intro gi₀ m k j g hj; simp at hj
  | cons g₀ gs ih =>
      intro gi₀ m k j g hj hk huniq
      cases j with
      | zero =>
          rw [List.get?_cons_zero] at hj
          injection hj with hj
          subst hj
          rw [buildF2G]
          rw [mapGet_buildF2G_not_mem gs (gi₀ + 1) _ k ?_]
          · rw [mapGet_foldl_mapSet_mem g₀ gi₀ m k hk, Nat.add_zero]
          · intro g' hg'
            obtain ⟨j', hj'⟩ := List.mem_iff_get?.mp hg'
            exact huniq (j' + 1) g' (by rwa [List.get?_cons_succ]) (by omega)
      | succ j' =>
          rw [buildF2G]
          rw [List.get?_cons_succ] at hj
          have harith : gi₀ + 1 + j' = gi₀ + (j' + 1) := by omega
          rw [← harith]
          refine ih (gi₀ + 1) _ k j' g hj hk ?_
          intro j'' g'' hj'' hne
          exact huniq (j'' + 1) g'' (by rwa [List.get?_cons_succ]) (by omega)

theorem join_nodup_disjoint (L : List (List Nat)) :
    L.flatten.Nodup →
    ∀ (j j' : Nat) (g g' : List Nat), L.get? j = some g →
      L.get? j' = some g' → j ≠ j' → ∀ a ∈ g, a ∉ g' := by
  induction L with
  | nil => intro _ j j' g g' hj; simp at hj
  | cons g₀ gs ih =>
      intro hnd j j' g g' hj hj' hne a ha hb
      rw [List.flatten_cons, List.nodup_append] at hnd
      obtain ⟨hg₀, hgs, hdisj⟩ := hnd
      cases j with
      | zero =>
          rw [List.get?_cons_zero] at hj
          cases hj
          cases j' with
          | zero => exact hne rfl
          | succ j'' =>
              rw [List.get?_cons_succ] at hj'
              have hg'mem : g' ∈ gs := List.get?_mem hj'
              exact hdisj ha (List.mem_flatten.mpr ⟨g', hg'mem, hb⟩)
      | succ j'' =>
          rw [List.get?_cons_succ] at hj
          cases j' with
          | zero =>
              rw [List.get?_cons_zero] at hj'
              cases hj'
              have hgmem : g ∈ gs := List.get?_mem hj
              exact hdisj hb (List.mem_flatten.mpr ⟨g, hgmem, ha⟩)
          | succ j₂ =>
              rw [List.get?_cons_succ] at hj'
              exact ih hgs j'' j₂ g g' hj hj' (by omega) a ha hb

theorem find?_append_of_none {α : Type} (p : α → Bool) (l₁ l₂ : List α)
    (h : List.find? p l₁ = none) :
    List.find? p (l₁ ++ l₂) = List.find? p l₂ := by
  rw [List.find?_append, h, Option.none_or]

/-- **C4.**  For every triangulated mesh, `buildFaceGroups` produces a true
partition of the triangle indices `0 .. faceCount-1`: every index below
`faceCount` lies in exactly one group (the flattened groups have no
duplicates and cover exactly the range), the `faceToGroup` reverse map sends
each index to the unique group containing it, and a second call on the same
unmodified mesh returns the identical result through the cache. -/
theorem buildFaceGroups_partition (mesh : List Vec3) (cache : FaceGroupsCache)
    (uuid : String) :
    (∀ i, i < mesh.length / 3 ↔
      i ∈ (buildFaceGroupsOfMesh mesh).groups.flatten) ∧
    (buildFaceGroupsOfMesh mesh).groups.flatten.Nodup ∧
    (∀ i, i < mesh.length / 3 →
      ∃ gi g, mapGet (buildFaceGroupsOfMesh mesh).faceToGroup i = some gi ∧
        (buildFaceGroupsOfMesh mesh).groups.get? gi = some g ∧ i ∈ g ∧
        ∀ (gj : Nat) (g' : List Nat),
          (buildFaceGroupsOfMesh mesh).groups.get? gj = some g' → i ∈ g' →
          gj = gi) ∧
    ((buildFaceGroups (buildFaceGroups cache uuid mesh).2 uuid mesh).1 =
      (buildFaceGroups cache uuid mesh).1) := by
  have hgo := buildGroupsGo_spec (meshCompat mesh) (mesh.length / 3)
    (List.range (mesh.length / 3)) ([], [])
    (fun i hi => List.mem_range.mp hi) rfl List.nodup_nil
    (fun i hi => absurd hi (by simp))
  obtain ⟨hjoin, hnodup, hlt, _, hcover⟩ := hgo
  have hiff : ∀ i, i < mesh.length / 3 ↔
      i ∈ (buildFaceGroupsOfMesh mesh).groups.flatten := by
    intro i
    show i < mesh.length / 3 ↔ i ∈ (buildGroupsGo (meshCompat mesh)
      (mesh.length / 3) (List.range (mesh.length / 3)) ([], [])).1.flatten
    rw [← hjoin]
    constructor
    · intro h
      exact hcover i (List.mem_range.mpr h)
    · intro h
      exact hlt i h
  have hnd : (buildFaceGroupsOfMesh mesh).groups.flatten.Nodup := by
    show (buildGroupsGo (meshCompat mesh) (mesh.length / 3)
      (List.range (mesh.length / 3)) ([], [])).1.flatten.Nodup
    rw [← hjoin]
    exact hnodup
  refine ⟨hiff, hnd, ?_, ?_⟩
  · intro i hi
    have hmem := (hiff i).mp hi
    obtain ⟨g, hg, hig⟩ := List.mem_flatten.mp hmem
    obtain ⟨j, hj⟩ := List.mem_iff_get?.mp hg
    have huniq : ∀ (j' : Nat) (g' : List Nat),
        (buildFaceGroupsOfMesh mesh).groups.get? j' = some g' → j' ≠ j →
        i ∉ g' := by
      intro j' g' hj' hne
      exact fun hc =>
        join_nodup_disjoint (buildFaceGroupsOfMesh mesh).groups hnd j' j g' g
          hj' hj hne i hc hig
    refine ⟨j, g, ?_, hj, hig, ?_⟩
    · show mapGet (buildF2G (buildGroupsGo (meshCompat mesh)
        (mesh.length / 3) (List.range (mesh.length / 3)) ([], [])).1 0 []) i =
        some j
      have := mapGet_buildF2G_mem (buildFaceGroupsOfMesh mesh).groups 0 [] i j
        g hj hig huniq
      rwa [Nat.zero_add] at this
    · intro gj g' hgj hig'
      by_contra hne
      exact huniq gj g' hgj hne hig'
  · rcases hfind : List.find? (fun p => p.1 == uuid) cache with _ | p
    · have hc : buildFaceGroups cache uuid mesh =
          (buildFaceGroupsOfMesh mesh,
            cache ++ [(uuid, buildFaceGroupsOfMesh mesh)]) := by
        unfold buildFaceGroups
        rw [hfind]
      rw [hc]
      show (buildFaceGroups (cache ++ [(uuid, buildFaceGroupsOfMesh mesh)])
        uuid mesh).1 = buildFaceGroupsOfMesh mesh
      unfold buildFaceGroups
      rw [find?_append_of_none _ _ _ hfind]
      rw [List.find?_cons_of_pos _ (by simp)]
    · have hc : buildFaceGroups cache uuid mesh = (p.2, cache) := by
        unfold buildFaceGroups
        rw [hfind]
      rw [hc]
      show (buildFaceGroups cache uuid mesh).1 = p.2
      unfold buildFaceGroups
      rw [hfind]

/-- A flat quad as triangulated by `THREE.ShapeGeometry`: two coplanar
triangles sharing the diagonal `(0,0,0)–(1,1,0)`. -/
def quadMesh : List Vec3 :=
  [⟨0, 0, 0⟩, ⟨1, 0, 0⟩, ⟨1, 1, 0⟩,
   ⟨0, 0, 0⟩, ⟨1, 1, 0⟩, ⟨0, 1, 0⟩]

/-- Witness for C4: on the concrete `quadMesh` (2 triangles), triangle `0`
is covered by the partition and the reverse map sends it to the unique group
containing it. -/
theorem buildFaceGroups_partition_witness :
    (0 ∈ (buildFaceGroupsOfMesh quadMesh).groups.flatten) ∧
    (∃ gi g, mapGet (buildFaceGroupsOfMesh quadMesh).faceToGroup 0 = some gi ∧
      (buildFaceGroupsOfMesh quadMesh).groups.get? gi = some g ∧ 0 ∈ g ∧
      ∀ (gj : Nat) (g' : List Nat),
        (buildFaceGroupsOfMesh quadMesh).groups.get? gj = some g' → 0 ∈ g' →
        gj = gi) := by
  have h := buildFaceGroups_partition quadMesh [] "mesh-uuid"
  exact ⟨(h.1 0).mp (by decide), h.2.2.1 0 (by decide)⟩

/-!
## C5: perimeter extraction (`createBodyFaceHighlight`, face-selector.js:388-437)

The JavaScript keys each vertex by its fixed-precision coordinate string
(`toFixed(6)`) and each undirected edge by the *sorted* pair of vertex keys.
In the exact-arithmetic model the key of a vertex is the vertex itself and
the sorted pair uses the lexicographic coordinate order; the counting only
uses that the key canonicalizes the unordered pair, which any total order
does.
-/

/-- `keyA < keyB` on canonical vertex keys: lexicographic coordinate order. -/
def ptLt (a b : Vec3) : Bool :=
  decide (a.x < b.x ∨ (a.x = b.x ∧ (a.y < b.y ∨ (a.y = b.y ∧ a.z < b.z))))

/-- The canonical (sorted) undirected edge key (face-selector.js:410-413). -/
def edgeKeyOf (a b : Vec3) : Vec3 × Vec3 :=
  if ptLt a b then (a, b) else (b, a)

/-- The three edge keys of a triangle, in push order
`(v1,v2), (v2,v3), (v3,v1)` (face-selector.js:403-416). -/
def triEdgeKeys (mesh : List Vec3) (faceIndex : Nat) : List (Vec3 × Vec3) :=
  let v1 := meshPoint mesh (faceIndex * 3)
  let v2 := meshPoint mesh (faceIndex * 3 + 1)
  let v3 := meshPoint mesh (faceIndex * 3 + 2)
  [edgeKeyOf v1 v2, edgeKeyOf v2 v3, edgeKeyOf v3 v1]

/-- `edgeMap.set(edgeKey, (edgeMap.get(edgeKey) || 0) + 1)`
(face-selector.js:415): bump in place, or append a fresh key with count 1. -/
def bumpCount (m : List ((Vec3 × Vec3) × Nat)) (k : Vec3 × Vec3) :
    List ((Vec3 × Vec3) × Nat) :=
  match m with
  | [] => [(k, 1)]
  | (k', c) :: rest =>
      if k' = k then (k', c + 1) :: rest else (k', c) :: bumpCount rest k

/-- The `edgeMap` after scanning all triangles of the group
(face-selector.js:393-417). -/
def edgeCounts (mesh : List Vec3) (group : List Nat) :
    List ((Vec3 × Vec3) × Nat) :=
  group.foldl (fun m f => (triEdgeKeys mesh f).foldl bumpCount m) []

/-- The count stored under one key (`edgeMap.get(k) || 0`). -/
def keyCount (m : List ((Vec3 × Vec3) × Nat)) (k : Vec3 × Vec3) : Nat :=
  ((List.find? (fun p => p.1 == k) m).map Prod.snd).getD 0

/-- The perimeter: keys whose count is exactly 1 (face-selector.js:431-437),
in map insertion order. -/
def perimeterEdges (mesh : List Vec3) (group : List Nat) : List (Vec3 × Vec3) :=
  (edgeCounts mesh group).filterMap
    (fun p => if p.2 = 1 then some p.1 else none)

/-- All edge-key occurrences among the group's triangles — the multiset the
specification counts over. -/
def allEdgeKeys (mesh : List Vec3) (group : List Nat) : List (Vec3 × Vec3) :=
  (group.map (triEdgeKeys mesh)).flatten

@[simp] theorem keyCount_nil (k : Vec3 × Vec3) : keyCount [] k = 0 := rfl

theorem keyCount_cons_self (k : Vec3 × Vec3) (c : Nat)
    (rest : List ((Vec3 × Vec3) × Nat)) :
    keyCount ((k, c) :: rest) k = c := by
  simp [keyCount, List.find?_cons_of_pos]

theorem keyCount_cons_ne (k' k : Vec3 × Vec3) (c : Nat)
    (rest : List ((Vec3 × Vec3) × Nat)) (h : k' ≠ k) :
    keyCount ((k', c) :: rest) k = keyCount rest k := by
  unfold keyCount
  rw [List.find?_cons_of_neg]
  simpa using h

theorem keyCount_bumpCount_self (m : List ((Vec3 × Vec3) × Nat))
    (k : Vec3 × Vec3) : keyCount (bumpCount m k) k = keyCount m k + 1 := by
  induction m with
  | nil => simp [bumpCount, keyCount_cons_self]
  | cons p rest ih =>
      obtain ⟨k', c⟩ := p
      by_cases h : k' = k
      · subst h
        rw [bumpCount, if_pos rfl, keyCount_cons_self, keyCount_cons_self]
      · rw [bumpCount]
        simp only [if_neg h]
        rw [keyCount_cons_ne _ _ _ _ h, keyCount_cons_ne _ _ _ _ h]
        exact ih

theorem keyCount_bumpCount_ne (m : List ((Vec3 × Vec3) × Nat))
    (k' k : Vec3 × Vec3) (h : k' ≠ k) :
    keyCount (bumpCount m k') k = keyCount m k := by
  induction m with
  | nil => simp [bumpCount, keyCount_cons_ne _ _ _ _ h]
  | cons p rest ih =>
      obtain ⟨k₀, c⟩ := p
      by_cases h₀ : k₀ = k'
      · subst h₀
        rw [bumpCount, if_pos rfl, keyCount_cons_ne _ _ _ _ h,
          keyCount_cons_ne _ _ _ _ h]
      · rw [bumpCount]
        simp only [if_neg h₀]
        by_cases h₁ : k₀ = k
        · subst h₁
          rw [keyCount_cons_self, keyCount_cons_self]
        · rw [keyCount_cons_ne _ _ _ _ h₁, keyCount_cons_ne _ _ _ _ h₁]
          exact ih

theorem keyCount_foldl_bumpCount (ks : List (Vec3 × Vec3)) :
    ∀ (m : List ((Vec3 × Vec3) × Nat)) (k : Vec3 × Vec3),
      keyCount (ks.foldl bumpCount m) k = keyCount m k + ks.count k := by
  induction ks with
  | nil => intro m k; simp
  | cons a t ih =>
      intro m k
      rw [List.foldl_cons, ih, List.count_cons]
      by_cases h : a = k
      · subst h
        rw [keyCount_bumpCount_self]
        simp
        omega
      · rw [keyCount_bumpCount_ne _ _ _ h]
        simp [h]

theorem keyCount_edgeCounts (mesh : List Vec3) (group : List Nat) :
    ∀ (k : Vec3 × Vec3),
      keyCount (edgeCounts mesh group) k = (allEdgeKeys mesh group).count k := by
  suffices h : ∀ (l : List Nat) (m : List ((Vec3 × Vec3) × Nat))
      (k : Vec3 × Vec3),
      keyCount (l.foldl (fun m f => (triEdgeKeys mesh f).foldl bumpCount m) m) k
        = keyCount m k + ((l.map (triEdgeKeys mesh)).flatten).count k by
    intro k
    have := h group [] k
    simpa [edgeCounts, allEdgeKeys] using this
  intro l
  induction l with
  | nil => intro m k; simp
  | cons f t ih =>
      intro m k
      rw [List.foldl_cons, ih, keyCount_foldl_bumpCount]
      rw [List.map_cons, List.flatten_cons, List.count_append]
      omega

/-- The keys of the edge map never repeat. -/
theorem keysNodup_bumpCount (m : List ((Vec3 × Vec3) × Nat))
    (k : Vec3 × Vec3) (h : (m.map Prod.fst).Nodup) :
    ((bumpCount m k).map Prod.fst).Nodup := by
  induction m with
  | nil => simp [bumpCount]
  | cons p rest ih =>
      obtain ⟨k', c⟩ := p
      rw [List.map_cons, List.nodup_cons] at h
      by_cases hk : k' = k
      · subst hk
        rw [bumpCount, if_pos rfl, List.map_cons]
        exact List.nodup_cons.mpr h
      · rw [bumpCount]
        simp only [if_neg hk]
        rw [List.map_cons, List.nodup_cons]
        refine ⟨?_, ih h.2⟩
        intro hc
        have hkeys : ∀ x, x ∈ (bumpCount rest k).map Prod.fst →
            x ∈ rest.map Prod.fst ∨ x = k := by
          clear hc ih h
          induction rest with
          | nil => intro x hx; simp [bumpCount] at hx; exact Or.inr hx
          | cons q t iht =>
              obtain ⟨kq, cq⟩ := q
              intro x hx
              by_cases hq : kq = k
              · subst hq
                rw [bumpCount, if_pos rfl] at hx
                simp only [List.map_cons, List.mem_cons] at hx ⊢
                tauto
              · rw [bumpCount] at hx
                simp only [if_neg hq] at hx
                simp only [List.map_cons, List.mem_cons] at hx ⊢
                rcases hx with rfl | hx
                · tauto
                · rcases iht x hx with h | h
                  · tauto
                  · tauto
        rcases hkeys k' hc with h' | h'
        · exact h.1 h'
        · exact hk h'

theorem keysNodup_edgeCounts (mesh : List Vec3) (group : List Nat) :
    ((edgeCounts mesh group).map Prod.fst).Nodup := by
  suffices h : ∀ (l : List Nat) (m : List ((Vec3 × Vec3) × Nat)),
      (m.map Prod.fst).Nodup →
      ((l.foldl (fun m f => (triEdgeKeys mesh f).foldl bumpCount m) m).map
        Prod.fst).Nodup by
    exact h group [] (by simp)
  intro l
  induction l with
  | nil => intro m hm; exact hm
  | cons f t ih =>
      intro m hm
      rw [List.foldl_cons]
      refine ih _ ?_
      have hfold : ∀ (ks : List (Vec3 × Vec3))
          (m' : List ((Vec3 × Vec3) × Nat)), (m'.map Prod.fst).Nodup →
          ((ks.foldl bumpCount m').map Prod.fst).Nodup := by
        intro ks
        induction ks with
        | nil => intro m' hm'; exact hm'
        | cons a s ihs =>
            intro m' hm'
            rw [List.foldl_cons]
            exact ihs _ (keysNodup_bumpCount m' a hm')
      exact hfold _ _ hm

theorem find?_of_mem_keysNodup (m : List ((Vec3 × Vec3) × Nat))
    (k : Vec3 × Vec3) (c : Nat) (hmem : (k, c) ∈ m)
    (hnd : (m.map Prod.fst).Nodup) :
    List.find? (fun p => p.1 == k) m = some (k, c) := by
  induction m with
  | nil => cases hmem
  | cons p rest ih =>
      obtain ⟨k', c'⟩ := p
      rw [List.map_cons, List.nodup_cons] at hnd
      rcases List.mem_cons.mp hmem with h | h
      · cases h
        exact List.find?_cons_of_pos _ (by simp)
      · by_cases hk : k' = k
        · subst hk
          exact absurd (List.mem_map.mpr ⟨(k', c), h, rfl⟩) hnd.1
        · rw [List.find?_cons_of_neg _ (by simpa using hk)]
          exact ih h hnd.2

/-- **C5.**  For every mesh and face group, perimeter extraction keeps
exactly those canonical undirected edge keys that occur exactly once among
the group's triangles and excludes every key occurring two or more times; in
particular, for the flat quad of 2 triangles the perimeter has exactly 4
edges and the shared interior diagonal `(0,0,0)–(1,1,0)` is excluded. -/
theorem perimeter_iff_single_occurrence (mesh : List Vec3) (group : List Nat) :
    (∀ k : Vec3 × Vec3, k ∈ perimeterEdges mesh group ↔
      (allEdgeKeys mesh group).count k = 1) ∧
    (perimeterEdges quadMesh [0, 1]).length = 4 ∧
    edgeKeyOf ⟨0, 0, 0⟩ ⟨1, 1, 0⟩ ∉ perimeterEdges quadMesh [0, 1] := by
  refine ⟨?_, by decide, by decide⟩
  intro k
  rw [← keyCount_edgeCounts]
  constructor
  · intro h
    obtain ⟨p, hp, hfp⟩ := List.mem_filterMap.mp h
    obtain ⟨k₀, c⟩ := p
    by_cases hc : c = 1
    · rw [if_pos hc] at hfp
      cases hfp
      subst hc
      rw [keyCount]
      rw [find?_of_mem_keysNodup _ _ _ hp (keysNodup_edgeCounts mesh group)]
      rfl
    · rw [if_neg hc] at hfp
      cases hfp
  · intro h
    rw [keyCount] at h
    rcases hfind : List.find? (fun p => p.1 == k) (edgeCounts mesh group)
      with _ | p
    · rw [hfind] at h
      simp at h
    · rw [hfind] at h
      obtain ⟨k₀, c⟩ := p
      have hk₀ : k₀ = k := by
        have := List.find?_some hfind
        simpa using this
      have hc : c = 1 := by simpa using h
      subst hk₀
      subst hc
      refine List.mem_filterMap.mpr ⟨(k₀, 1), List.mem_of_find?_eq_some hfind, ?_⟩
      rw [if_pos rfl]

/-!
## C6: coplanar adjacent triangles merge, perpendicular ones do not
-/

/-- For a two-triangle mesh the flood fill reduces to the single acceptance
test between triangle 0 (seed and current) and triangle 1. -/
theorem buildGroupsPure_two (c : Nat → Nat → Nat → Bool) :
    (buildGroupsPure c 2).groups =
      if c 0 0 1 then [[0, 1]] else [[0], [1]] := by
  cases hc : c 0 0 1 with
  | true =>
      simp [buildGroupsPure, buildGroupsGo, bfsGo, List.range_succ, hc]
  | false =>
      simp [buildGroupsPure, buildGroupsGo, bfsGo, List.range_succ, hc]

/-- Normals at 90° (`dot = 0`) always fail the coplanarity test: the
squared comparison pits `0` against a nonnegative right-hand side. -/
theorem coplanarB_false_of_dot_zero (n1 n2 : Vec3)
    (h : Vec3.dot n1 n2 = 0) : coplanarB n1 n2 = false := by
  unfold coplanarB
  rw [h]
  rw [decide_eq_false_iff_not]
  have h1 := Vec3.dot_self_nonneg n1
  have h2 := Vec3.dot_self_nonneg n2
  intro hc
  nlinarith

/-- **C6.**  For a mesh of two triangles (6 buffer points): when the pair
passes the code's coplanarity test (`|dot| > 0.9999` on unit normals) and
shares an edge (at least 2 vertex positions within `1e-4`), `buildFaceGroups`
places both triangles in one group; when their normals meet at 90 degrees
(dot product 0), it places them in two separate groups. -/
theorem two_triangle_grouping (mesh : List Vec3) (hlen : mesh.length = 6) :
    (coplanarB (getFaceNormal mesh 0) (getFaceNormal mesh 1) = true →
      facesShareEdge (getFaceVertices mesh 0) (getFaceVertices mesh 1) = true →
      (buildFaceGroupsOfMesh mesh).groups = [[0, 1]]) ∧
    (Vec3.dot (getFaceNormal mesh 0) (getFaceNormal mesh 1) = 0 →
      (buildFaceGroupsOfMesh mesh).groups = [[0], [1]]) := by
  have hcount : mesh.length / 3 = 2 := by rw [hlen]
  have hmain : (buildFaceGroupsOfMesh mesh).groups =
      if meshCompat mesh 0 0 1 then [[0, 1]] else [[0], [1]] := by
    unfold buildFaceGroupsOfMesh
    rw [hcount]
    exact buildGroupsPure_two (meshCompat mesh)
  constructor
  · intro hcop hshare
    rw [hmain]
    have : meshCompat mesh 0 0 1 = true := by
      unfold meshCompat
      rw [hcop, hshare]
      rfl
    rw [this, if_pos rfl]
  · intro hdot
    rw [hmain]
    have : meshCompat mesh 0 0 1 = false := by
      unfold meshCompat
      rw [coplanarB_false_of_dot_zero _ _ hdot]
      rfl
    rw [this]
    rfl

/-- Two triangles sharing the edge `(0,0,0)–(1,0,0)` but meeting at 90°:
the first lies in the `z = 0` plane, the second in the `y = 0` plane. -/
def perpMesh : List Vec3 :=
  [⟨0, 0, 0⟩, ⟨1, 0, 0⟩, ⟨1, 1, 0⟩,
   ⟨0, 0, 0⟩, ⟨1, 0, 0⟩, ⟨0, 0, 1⟩]

/-- Witness for C6: the concrete flat quad merges into one group; the
concrete 90° pair stays in two groups. -/
theorem two_triangle_grouping_witness :
    (buildFaceGroupsOfMesh quadMesh).groups = [[0, 1]] ∧
    (buildFaceGroupsOfMesh perpMesh).groups = [[0], [1]] := by
  constructor
  · refine (two_triangle_grouping quadMesh rfl).1 ?_ ?_
    · norm_num [coplanarB, getFaceNormal, meshPoint, quadMesh, Vec3.cross,
        Vec3.sub, Vec3.dot]
    · norm_num [facesShareEdge, getFaceVertices, meshPoint, quadMesh, closeB,
        Vec3.sub, Vec3.dot, List.countP_cons, List.any_cons]
  · refine (two_triangle_grouping perpMesh rfl).2 ?_
    norm_num [getFaceNormal, meshPoint, perpMesh, Vec3.cross, Vec3.sub,
      Vec3.dot]

set_option maxHeartbeats 4000000 in
/-- **C3.**  For a sketch consisting of exactly the 4 vertices and 4 edges
created by `addBox` (a single cycle), `detectClosedLoops` returns exactly one
loop, that loop is the 4 created edge ids, and `getLoopVertices` on it
returns exactly the 4 created vertices in cyclic order (the `v0 → v1 → v2 →
v3` winding). -/
theorem addBox_single_loop (p : Plane) (cx cz w h : ℚ) :
    Sketch.detectClosedLoops (boxSketch p cx cz w h).2 =
      [(boxSketch p cx cz w h).1.2.map Edge.id] ∧
    ((boxSketch p cx cz w h).1.2.map Edge.id).length = 4 ∧
    Sketch.getLoopVertices (boxSketch p cx cz w h).2
        ((boxSketch p cx cz w h).1.2.map Edge.id) =
      some ((boxSketch p cx cz w h).1.1.map some) :=
  ⟨rfl, rfl, rfl⟩

end Kivi
